import Mathlib

/-!
Shallow embedding of the outcome-resolution and aggregation core of
`src/studies/tunkki.py` (repository `koponan/open-data`).

Python dict records become Lean structures holding exactly the fields the
core reads; Python exceptions raised by the core (`ValueError` from
`max([])`, `IndexError` from `[...][0]`, `KeyError` from a dict lookup)
become explicit error values of type `Err`, using the error names of the
specification.  `sorted` and `Counter.most_common` are stable sorts, so
they are embedded as a stable insertion sort; `Counter` is an
insertion-ordered association list built by a left fold, mirroring the
way a Python dict remembers first-occurrence key order.
-/

open List

/-- The `ResultType` enum of the source. -/
inductive ResultType where
  | FULL_TIME
  | EXTRA_TIME
  | PENALTY_SHOOTOUT
deriving DecidableEq, Repr

/-- Failure modes of the core, named as in the specification:
`emptyEventSequence` is `max()` on an empty sequence in `get_result_type`,
`playerNotInLineup` is the `IndexError` of `[...][0]` in
`populate_player_nicknames`, and `teamNotInLineups` is the `KeyError` of
`lineup_by_team_name[team_name]` there. -/
inductive Err where
  | emptyEventSequence
  | playerNotInLineup
  | teamNotInLineups
deriving DecidableEq, Repr

/-- A team record: the source reads `home_team_name`/`away_team_name`
(collapsed here into `name`, which is what `get_team_name` extracts) and
`country.name`. -/
structure Team where
  name : String
  country : String
deriving DecidableEq, Repr

/-- An event record, with exactly the fields the core reads:
`period`, `type.name`, `shot.outcome.name`, `team.name`, `player.id`,
`player.name`; `player_nickname` models the `player["nickname"]` key that
`populate_player_nicknames` writes (absent, i.e. `none`, on loaded data). -/
structure Event where
  period : Nat
  type_name : String
  shot_outcome_name : String
  team_name : String
  player_id : Nat
  player_name : String
  player_nickname : Option String := none
deriving DecidableEq, Repr

/-- A match record.  `home_penalty_score`, `away_penalty_score`,
`result_type` and `goals` are the derived fields the core attaches;
they default to the values a fresh record carries before population. -/
structure Match where
  home_team : Team
  away_team : Team
  home_score : Nat
  away_score : Nat
  home_penalty_score : Nat := 0
  away_penalty_score : Nat := 0
  result_type : Option ResultType := none
  goals : List Event := []
deriving DecidableEq, Repr

/-- One team's lineup for one match: `team_name` plus the `lineup` list of
player entries, as loaded from a lineups file. -/
structure LineupEntry where
  player_id : Nat
  player_nickname : Option String
  player_name : String
deriving DecidableEq, Repr

structure Lineup where
  team_name : String
  lineup : List LineupEntry
deriving DecidableEq, Repr

/-- Embedding of `get_team_name(team)`: the team display name (the source reads the
`home_team_name` or `away_team_name` key, collapsed to `name` here). -/
def get_team_name (t : Team) : String :=
  t.name

/-- Embedding of `get_winning_team(match)`: regulation score comparison first, penalty
score comparison second, `None` (draw) when both are level. -/
def get_winning_team (m : Match) : Option Team :=
  if m.home_score > m.away_score then some m.home_team
  else if m.home_score < m.away_score then some m.away_team
  else if m.home_penalty_score > m.away_penalty_score then some m.home_team
  else if m.home_penalty_score < m.away_penalty_score then some m.away_team
  else none

/-- Embedding of `get_goal_events(match_events)`: the comprehension
`[e for e in match_events if e.period <= 4 and e.type.name == "Shot" and
e.shot.outcome.name == "Goal"]`. -/
def get_goal_events (match_events : List Event) : List Event :=
  match_events.filter fun e =>
    decide (e.period ≤ 4 ∧ e.type_name = "Shot" ∧ e.shot_outcome_name = "Goal")

/-- The period of `max(match_events, key=lambda m: m["period"])`: Python's
`max` raises on an empty sequence (`none` here) and otherwise returns an
element with the maximal key, whose `period` is the maximum period. -/
def terminal_period (events : List Event) : Option Nat :=
  match events.map Event.period with
  | [] => none
  | p :: ps => some (ps.foldl max p)

/-- Embedding of `get_result_type(match_events)`: classify by the terminal period. -/
def get_result_type (events : List Event) : Except Err ResultType :=
  match terminal_period events with
  | none => Except.error Err.emptyEventSequence
  | some p =>
    if p ≤ 2 then Except.ok ResultType.FULL_TIME
    else if p ≤ 4 then Except.ok ResultType.EXTRA_TIME
    else Except.ok ResultType.PENALTY_SHOOTOUT

/-- The loop body of `populate_penalty_scores`: a period-5 scoring shot is
appended to the home list when its team name equals the home team name and
to the away list otherwise. -/
def penalty_step (m : Match) (acc : List Event × List Event) (e : Event) :
    List Event × List Event :=
  if e.period = 5 ∧ e.type_name = "Shot" ∧ e.shot_outcome_name = "Goal" then
    if e.team_name = m.home_team.name then (acc.1 ++ [e], acc.2)
    else (acc.1, acc.2 ++ [e])
  else acc

/-- Embedding of `populate_penalty_scores(match, events)`: write the two penalty-score
fields from the lengths of the two lists the loop accumulates. -/
def populate_penalty_scores (m : Match) (events : List Event) : Match :=
  let pens := events.foldl (penalty_step m) ([], [])
  { m with home_penalty_score := pens.1.length,
           away_penalty_score := pens.2.length }

/-- The dict `lineup_by_team_name` built from `lineups[0]` and
`lineups[1]`: the second insertion wins on a duplicate key, and a name
matching neither is a `KeyError` (`none`). -/
def lineup_for (l0 l1 : Lineup) (name : String) : Option (List LineupEntry) :=
  if name = l1.team_name then some l1.lineup
  else if name = l0.team_name then some l0.lineup
  else none

/-- One iteration of the `populate_player_nicknames` loop: resolve the
event team's lineup, take `[p for p in lineup if p.player_id == id][0]`,
and set `player["nickname"]` to the lineup nickname unless it is `None`
(Python `nickname if nickname is not None else player["name"]`). -/
def resolve_nickname (l0 l1 : Lineup) (e : Event) : Except Err Event :=
  match lineup_for l0 l1 e.team_name with
  | none => Except.error Err.teamNotInLineups
  | some lineup =>
    match lineup.filter (fun p => decide (p.player_id = e.player_id)) with
    | [] => Except.error Err.playerNotInLineup
    | p :: _ =>
      let nickname : String :=
        match p.player_nickname with
        | some n => n
        | none => e.player_name
      Except.ok { e with player_nickname := some nickname }

/-- Embedding of `populate_player_nicknames(match_id, match_event_list)`: process the
events in order; the first raised exception aborts the whole loop. -/
def populate_player_nicknames (l0 l1 : Lineup) : List Event → Except Err (List Event)
  | [] => Except.ok []
  | e :: es =>
    match resolve_nickname l0 l1 e with
    | Except.error err => Except.error err
    | Except.ok e' =>
      match populate_player_nicknames l0 l1 es with
      | Except.error err => Except.error err
      | Except.ok es' => Except.ok (e' :: es')

/-- The per-match body of the `report_ucl` loop (lines 200-203 of the
source): attach `result_type`, `goals`, the penalty scores, and the
scorer nicknames; any exception aborts the match. -/
def resolve_match (l0 l1 : Lineup) (m : Match) (events : List Event) :
    Except Err Match :=
  match get_result_type events with
  | Except.error err => Except.error err
  | Except.ok rt =>
    let m1 := populate_penalty_scores
      { m with result_type := some rt, goals := get_goal_events events } events
    match populate_player_nicknames l0 l1 m1.goals with
    | Except.error err => Except.error err
    | Except.ok goals' => Except.ok { m1 with goals := goals' }

/-- Stable insertion of `x` into `l`: `x` goes in front of the first
element `y` with `le x y`, so an element placed among ties comes before
the later-arriving equals, which is exactly the stability guarantee of
Python's `sorted` (and of `Counter.most_common`, implemented with it). -/
def insort (le : α → α → Bool) (x : α) : List α → List α
  | [] => [x]
  | y :: ys => if le x y then x :: y :: ys else y :: insort le x ys

/-- Stable insertion sort, the embedding of Python's stable `sorted`. -/
def isort (le : α → α → Bool) : List α → List α
  | [] => []
  | x :: xs => insort le x (isort le xs)

/-- Ordered-dict update: apply `g` to the value at the first entry with
key `k`, or append `(k, d)` when the key is absent — how a Python dict
assignment behaves, keys kept in first-insertion order. -/
def upsert [DecidableEq κ] (g : β → β) (d : β) (k : κ) :
    List (κ × β) → List (κ × β)
  | [] => [(k, d)]
  | (k', v) :: rest =>
    if k' = k then (k', g v) :: rest else (k', v) :: upsert g d k rest

/-- Association-list lookup (Python `dict[key]`; `none` is a `KeyError`). -/
def alookup [DecidableEq κ] (k : κ) : List (κ × β) → Option β
  | [] => none
  | (k', v) :: rest => if k' = k then some v else alookup k rest

/-- Embedding of `collections.Counter(seq)` as its item list: multiplicities of the
elements of `seq`, keys in first-occurrence order. -/
def counter [DecidableEq α] (l : List α) : List (α × Nat) :=
  l.foldl (fun acc x => upsert (fun n => n + 1) 1 x acc) []

/-- Embedding of `Counter.most_common()`: the items stable-sorted by descending count
(CPython: `sorted(self.items(), key=itemgetter(1), reverse=True)`). -/
def most_common (items : List (α × Nat)) : List (α × Nat) :=
  isort (fun a b => decide (b.2 ≤ a.2)) items

/-- Python's ascending string comparison, as used by `sorted(goal_scorers)`:
lexicographic comparison of the code-point sequences. -/
def str_le (a b : String) : Bool :=
  decide (a.data ≤ b.data)

/-- Lines 186-193 of `report_ucl`: the countries of both sides of every
match, in match order, counted and ranked by `Counter.most_common()`. -/
def participation_report (ms : List Match) : List (String × Nat) :=
  most_common (counter
    (ms.flatMap fun m => [m.home_team.country, m.away_team.country]))

/-- Embedding of `[get_winning_team(m) for m in matches]` combined with the subsequent
attribute accesses on each winner: a drawn match makes `get_winning_team`
return `None` and `get_team_name(None)` raise, so one draw fails the
whole report (`none`). -/
def winners : List Match → Option (List Team)
  | [] => some []
  | m :: ms =>
    match get_winning_team m with
    | none => none
    | some t =>
      match winners ms with
      | none => none
      | some ts => some (t :: ts)

/-- Lines 209-216: the insertion-ordered dict `teams_by_country`, mapping
each winner's country to the winner names credited to it, in input order. -/
def teams_by_country (ws : List Team) : List (String × List String) :=
  ws.foldl
    (fun acc t =>
      upsert (fun names => names ++ [get_team_name t]) [get_team_name t]
        t.country acc) []

/-- Lines 218-223: countries stable-sorted by descending win count
(`key=lambda pair: -len(pair[1])`), each listing
`Counter(teams).most_common()`. -/
def wins_report (ms : List Match) :
    Option (List (String × List (String × Nat))) :=
  match winners ms with
  | none => none
  | some ws =>
    some ((isort (fun a b => decide (b.2.length ≤ a.2.length))
        (teams_by_country ws)).map
      fun p => (p.1, most_common (counter p.2)))

/-- Each goal's `g["player"]["nickname"]` access: a `KeyError` (`none`)
when the nickname was never populated. -/
def goals_nicknames : List Event → Option (List String)
  | [] => some []
  | g :: gs =>
    match g.player_nickname with
    | none => none
    | some n =>
      match goals_nicknames gs with
      | none => none
      | some ns => some (n :: ns)

/-- Lines 226-227: all matches' goal scorer nicknames flattened in match
order (`itertools.chain.from_iterable`). -/
def all_scorer_nicknames : List Match → Option (List String)
  | [] => some []
  | m :: ms =>
    match goals_nicknames m.goals with
    | none => none
    | some ns =>
      match all_scorer_nicknames ms with
      | none => none
      | some rest => some (ns ++ rest)

/-- Lines 226-231: `goal_counter = Counter(sorted(goal_scorers))` and
`goal_counter.most_common()[:10]`. -/
def top_scorers (ms : List Match) : Option (List (String × Nat)) :=
  match all_scorer_nicknames ms with
  | none => none
  | some gs => some ((most_common (counter (isort str_le gs))).take 10)

/-- The spec's top-scorers order: descending count, ties broken by
ascending (code-point lexicographic) nickname. -/
def scorer_le (a b : String × Nat) : Bool :=
  decide (b.2 < a.2 ∨ (a.2 = b.2 ∧ a.1.data ≤ b.1.data))

/-- Propositional form of `scorer_le`. -/
def scorer_rel (a b : String × Nat) : Prop :=
  b.2 < a.2 ∨ (a.2 = b.2 ∧ a.1.data ≤ b.1.data)

/-- Modelled from the spec's words for the top-scorers report, as claim
C8 describes it: count occurrences per distinct nickname and return the
top 10 by descending count, equal counts ordered by ascending nickname. -/
def top_scorers_spec (ms : List Match) : Option (List (String × Nat)) :=
  match all_scorer_nicknames ms with
  | none => none
  | some gs => some ((isort scorer_le (counter gs)).take 10)

/-- Number of occurrences of `a` in `l` (specification-side count). -/
def occ_count [DecidableEq α] (a : α) : List α → Nat
  | [] => 0
  | x :: xs => (if x = a then 1 else 0) + occ_count a xs

/-- Key-set effect of one `upsert`: an existing key is kept in place, a
new key is appended. -/
def add_key [DecidableEq κ] (ks : List κ) (k : κ) : List κ :=
  if k ∈ ks then ks else ks ++ [k]

/-- Concrete data for witnesses and counterexamples. -/
def team_h : Team := { name := "H", country := "X" }

def team_a : Team := { name := "A", country := "Y" }

def match_w : Match :=
  { home_team := team_h, away_team := team_a, home_score := 3, away_score := 1 }

def mk_event (p : Nat) : Event :=
  { period := p, type_name := "Pass", shot_outcome_name := "",
    team_name := "H", player_id := 0, player_name := "P" }

/-- A period-1 scoring shot by player 7 of the home team. -/
def event_goal : Event :=
  { period := 1, type_name := "Shot", shot_outcome_name := "Goal",
    team_name := "H", player_id := 7, player_name := "John Doe" }

/-- Home lineup whose entry for player 7 carries an empty-string nickname. -/
def lineup_h_empty : Lineup :=
  { team_name := "H",
    lineup := [{ player_id := 7, player_nickname := some "",
                 player_name := "John Doe" }] }

/-- Home lineup that does not list player 7 at all. -/
def lineup_h_other : Lineup :=
  { team_name := "H",
    lineup := [{ player_id := 8, player_nickname := none,
                 player_name := "Q" }] }

def lineup_a_empty : Lineup := { team_name := "A", lineup := [] }

/-- A period-5 scoring shot by a team named neither like the home nor
like the away side. -/
def event_third_party : Event :=
  { period := 5, type_name := "Shot", shot_outcome_name := "Goal",
    team_name := "Z", player_id := 9, player_name := "R" }

def match_level : Match :=
  { home_team := team_h, away_team := team_a, home_score := 1, away_score := 1 }

/-- A scoring goal event carrying an already-populated nickname. -/
def scored_by (n : String) : Event :=
  { period := 1, type_name := "Shot", shot_outcome_name := "Goal",
    team_name := "H", player_id := 1, player_name := n,
    player_nickname := some n }

/-- One match whose scorer multiset is A:3, B:3, C:1 (claim C8 scenario). -/
def match_c8 : Match :=
  { home_team := team_h, away_team := team_a, home_score := 7, away_score := 0,
    goals := [scored_by "A", scored_by "A", scored_by "A",
              scored_by "B", scored_by "B", scored_by "B", scored_by "C"] }

/-- Two matches whose four teams draw countries X and Y once each from
either side, so the participation counts tie. -/
def match_p1 : Match :=
  { home_team := { name := "H1", country := "X" },
    away_team := { name := "A1", country := "Y" },
    home_score := 1, away_score := 0 }

def match_p2 : Match :=
  { home_team := { name := "H2", country := "Y" },
    away_team := { name := "A2", country := "X" },
    home_score := 1, away_score := 0 }

/-! ### Lemmas about the stable insertion sort -/

theorem insort_perm (le : α → α → Bool) (x : α) (l : List α) :
    insort le x l ~ x :: l := by
  induction l with
  | nil => exact List.Perm.refl _
  | cons y ys ih =>
    simp only [insort]
    by_cases hxy : le x y = true
    · rw [if_pos hxy]
    · rw [if_neg hxy]
      exact (ih.cons y).trans (List.Perm.swap x y ys)

theorem isort_perm (le : α → α → Bool) (l : List α) : isort le l ~ l := by
  induction l with
  | nil => exact List.Perm.refl _
  | cons x xs ih => exact (insort_perm le x (isort le xs)).trans (ih.cons x)

theorem mem_isort (le : α → α → Bool) {a : α} {l : List α} :
    a ∈ isort le l ↔ a ∈ l :=
  (isort_perm le l).mem_iff

theorem insort_pairwise (le : α → α → Bool)
    (htrans : ∀ a b c, le a b = true → le b c = true → le a c = true)
    (htot : ∀ a b, le a b = true ∨ le b a = true) (x : α) {l : List α}
    (h : l.Pairwise (fun a b => le a b = true)) :
    (insort le x l).Pairwise (fun a b => le a b = true) := by
  induction l with
  | nil => simp [insort]
  | cons y ys ih =>
    rcases List.pairwise_cons.mp h with ⟨hy, hys⟩
    simp only [insort]
    by_cases hxy : le x y = true
    · rw [if_pos hxy]
      refine List.pairwise_cons.mpr ⟨?_, h⟩
      intro z hz
      rcases List.mem_cons.mp hz with rfl | hz
      · exact hxy
      · exact htrans x y z hxy (hy z hz)
    · rw [if_neg hxy]
      refine List.pairwise_cons.mpr ⟨?_, ih hys⟩
      intro z hz
      rcases List.mem_cons.mp ((insort_perm le x ys).mem_iff.mp hz) with hzx | hz'
      · subst hzx
        rcases htot z y with h' | h'
        · exact absurd h' hxy
        · exact h'
      · exact hy z hz'

theorem isort_pairwise (le : α → α → Bool)
    (htrans : ∀ a b c, le a b = true → le b c = true → le a c = true)
    (htot : ∀ a b, le a b = true ∨ le b a = true) (l : List α) :
    (isort le l).Pairwise (fun a b => le a b = true) := by
  induction l with
  | nil => simp [isort]
  | cons x xs ih => exact insort_pairwise le htrans htot x ih

theorem insort_congr (le1 le2 : α → α → Bool) (x : α) {l : List α}
    (h : ∀ y ∈ l, le1 x y = le2 x y) :
    insort le1 x l = insort le2 x l := by
  induction l with
  | nil => rfl
  | cons y ys ih =>
    simp only [insort]
    rw [h y (List.mem_cons_self y ys)]
    by_cases h2 : le2 x y = true
    · rw [if_pos h2, if_pos h2]
    · rw [if_neg h2, if_neg h2,
        ih (fun z hz => h z (List.mem_cons_of_mem y hz))]

theorem isort_congr (le1 le2 : α → α → Bool) {l : List α}
    (h : l.Pairwise (fun a b => le1 a b = le2 a b)) :
    isort le1 l = isort le2 l := by
  induction l with
  | nil => rfl
  | cons x xs ih =>
    rcases List.pairwise_cons.mp h with ⟨hx, hxs⟩
    simp only [isort]
    rw [ih hxs]
    exact insort_congr le1 le2 x
      (fun y hy => hx y ((isort_perm le2 xs).mem_iff.mp hy))

/-! ### Lemmas about `foldl max` (the Python `max` over periods) -/

theorem foldl_max_spec (ps : List Nat) (p : Nat) :
    p ≤ ps.foldl max p ∧ (∀ q ∈ ps, q ≤ ps.foldl max p) ∧
      (ps.foldl max p = p ∨ ps.foldl max p ∈ ps) := by
  induction ps generalizing p with
  | nil => exact ⟨Nat.le_refl p, by simp, Or.inl rfl⟩
  | cons a as ih =>
    rcases ih (max p a) with ⟨h1, h2, h3⟩
    simp only [List.foldl_cons]
    refine ⟨Nat.le_trans (Nat.le_max_left p a) h1, ?_, ?_⟩
    · intro q hq
      rcases List.mem_cons.mp hq with rfl | hq
      · exact Nat.le_trans (Nat.le_max_right p q) h1
      · exact h2 q hq
    · rcases h3 with h3 | h3
      · rcases max_choice p a with hm | hm
        · exact Or.inl (h3.trans hm)
        · exact Or.inr (by rw [h3, hm]; exact List.mem_cons_self a as)
      · exact Or.inr (List.mem_cons_of_mem a h3)

/-! ### Lemmas about `occ_count`, `upsert`, `alookup` and `counter` -/

theorem occ_count_perm [DecidableEq α] {l l' : List α} (h : l ~ l') (a : α) :
    occ_count a l = occ_count a l' := by
  induction h with
  | nil => rfl
  | cons x h ih => simp only [occ_count, ih]
  | swap x y l => simp only [occ_count]; omega
  | trans h1 h2 ih1 ih2 => exact ih1.trans ih2

theorem occ_count_append [DecidableEq α] (a : α) (l1 l2 : List α) :
    occ_count a (l1 ++ l2) = occ_count a l1 + occ_count a l2 := by
  induction l1 with
  | nil => simp [occ_count]
  | cons x xs ih =>
    show occ_count a (x :: (xs ++ l2)) = occ_count a (x :: xs) + occ_count a l2
    simp only [occ_count]
    rw [ih]
    omega

theorem alookup_upsert [DecidableEq κ] (g : β → β) (d : β) (k a : κ)
    (l : List (κ × β)) :
    alookup a (upsert g d k l) =
      if k = a then some ((alookup a l).elim d g) else alookup a l := by
  induction l with
  | nil =>
    by_cases h : k = a
    · subst h; simp [upsert, alookup]
    · simp [upsert, alookup, h]
  | cons kv rest ih =>
    obtain ⟨k', v⟩ := kv
    by_cases h1 : k' = k
    · subst h1
      by_cases h2 : k' = a
      · subst h2; simp [upsert, alookup]
      · simp [upsert, alookup, h2]
    · by_cases h2 : k' = a
      · subst h2
        have hka : ¬k = k' := fun hh => h1 hh.symm
        simp [upsert, alookup, h1, hka]
      · simp [upsert, alookup, h1, h2, ih]

theorem keys_upsert [DecidableEq κ] (g : β → β) (d : β) (k : κ)
    (l : List (κ × β)) :
    (upsert g d k l).map Prod.fst = add_key (l.map Prod.fst) k := by
  induction l with
  | nil => simp [upsert, add_key]
  | cons kv rest ih =>
    obtain ⟨k', v⟩ := kv
    by_cases h1 : k' = k
    · subst h1; simp [upsert, add_key]
    · have hne : ¬k = k' := fun hh => h1 hh.symm
      simp only [upsert, if_neg h1, List.map_cons, ih, add_key,
        List.mem_cons, hne, false_or]
      by_cases h2 : k ∈ rest.map Prod.fst
      · simp [h2]
      · simp [h2]

theorem alookup_mem [DecidableEq κ] {l : List (κ × β)} {k : κ} {v : β}
    (h : (l.map Prod.fst).Nodup) : (k, v) ∈ l ↔ alookup k l = some v := by
  induction l with
  | nil => simp [alookup]
  | cons kv rest ih =>
    obtain ⟨k', v'⟩ := kv
    simp only [List.map_cons, List.nodup_cons] at h
    obtain ⟨hk', hrest⟩ := h
    by_cases h2 : k' = k
    · subst h2
      constructor
      · intro h3
        rcases List.mem_cons.mp h3 with h4 | h4
        · have hv : v = v' := (Prod.ext_iff.mp h4).2
          subst hv
          simp [alookup]
        · exact absurd (List.mem_map_of_mem Prod.fst h4) hk'
      · intro h3
        simp [alookup] at h3
        subst h3
        exact List.mem_cons_self _ _
    · have h2' : ¬k' = k := h2
      simp only [alookup, if_neg h2', List.mem_cons, Prod.mk.injEq]
      rw [← ih hrest]
      constructor
      · rintro (⟨h3, h4⟩ | h3)
        · exact absurd h3.symm h2
        · exact h3
      · exact Or.inr

theorem occ_count_eq_zero [DecidableEq α] {a : α} {l : List α}
    (h : a ∉ l) : occ_count a l = 0 := by
  induction l with
  | nil => rfl
  | cons x xs ih =>
    have hxa : ¬x = a := fun hh => h (hh ▸ List.mem_cons_self x xs)
    simp only [occ_count, if_neg hxa, ih (fun hh => h (List.mem_cons_of_mem x hh))]

theorem keys_upsert_foldl [DecidableEq κ] (g : α → β → β) (d : α → β)
    (kf : α → κ) (l : List α) (init : List (κ × β)) :
    (l.foldl (fun acc x => upsert (g x) (d x) (kf x) acc) init).map Prod.fst
      = (l.map kf).foldl add_key (init.map Prod.fst) := by
  induction l generalizing init with
  | nil => rfl
  | cons x xs ih =>
    simp only [List.foldl_cons, List.map_cons]
    rw [ih, keys_upsert]

theorem add_key_foldl_nodup [DecidableEq κ] :
    ∀ (l ks : List κ), ks.Nodup → (l.foldl add_key ks).Nodup
  | [], ks, h => h
  | x :: xs, ks, h => by
    simp only [List.foldl_cons]
    apply add_key_foldl_nodup xs
    by_cases hx : x ∈ ks
    · simpa [add_key, hx] using h
    · simp only [add_key, if_neg hx]
      refine List.Nodup.append h (List.nodup_singleton x) ?_
      intro a ha hax
      rw [List.mem_singleton] at hax
      exact hx (hax ▸ ha)

theorem mem_add_key_foldl [DecidableEq κ] (l : List κ) (ks : List κ) (a : κ) :
    a ∈ l.foldl add_key ks ↔ a ∈ ks ∨ a ∈ l := by
  induction l generalizing ks with
  | nil => simp
  | cons x xs ih =>
    simp only [List.foldl_cons, ih, List.mem_cons]
    by_cases hx : x ∈ ks
    · simp only [add_key, if_pos hx]
      constructor
      · rintro (h | h)
        · exact Or.inl h
        · exact Or.inr (Or.inr h)
      · rintro (h | rfl | h)
        · exact Or.inl h
        · exact Or.inl hx
        · exact Or.inr h
    · simp only [add_key, if_neg hx, List.mem_append, List.mem_singleton]
      tauto

theorem add_key_foldl_sorted_str :
    ∀ (l ks : List String), ks.Pairwise (fun a b => a.data < b.data) →
      (∀ y ∈ l, ∀ k ∈ ks, k.data ≤ y.data) →
      l.Pairwise (fun a b => a.data ≤ b.data) →
      (l.foldl add_key ks).Pairwise (fun a b => a.data < b.data)
  | [], _, hks, _, _ => hks
  | x :: xs, ks, hks, hbound, hl => by
    rcases List.pairwise_cons.mp hl with ⟨hx, hxs⟩
    simp only [List.foldl_cons]
    apply add_key_foldl_sorted_str xs
    · by_cases hmem : x ∈ ks
      · simpa [add_key, hmem] using hks
      · simp only [add_key, if_neg hmem]
        apply List.pairwise_append.mpr
        refine ⟨hks, List.pairwise_singleton _ _, ?_⟩
        intro k hk y hy
        rw [List.mem_singleton] at hy
        rw [hy]
        refine lt_of_le_of_ne (hbound x (List.mem_cons_self x xs) k hk) ?_
        intro hdata
        exact hmem (String.toList_inj.mp hdata ▸ hk)
    · intro y hy k hk
      by_cases hmem : x ∈ ks
      · rw [add_key, if_pos hmem] at hk
        exact hbound y (List.mem_cons_of_mem x hy) k hk
      · rw [add_key, if_neg hmem] at hk
        rcases List.mem_append.mp hk with hk | hk
        · exact hbound y (List.mem_cons_of_mem x hy) k hk
        · rw [List.mem_singleton] at hk
          subst hk
          exact hx y hy
    · exact hxs

theorem alookup_counter_fold [DecidableEq α] :
    ∀ (l : List α) (init : List (α × Nat)) (a : α),
      alookup a (l.foldl (fun acc x => upsert (fun n => n + 1) 1 x acc) init)
        = if a ∈ l then some ((alookup a init).getD 0 + occ_count a l)
          else alookup a init
  | [], init, a => by simp
  | x :: xs, init, a => by
    simp only [List.foldl_cons]
    rw [alookup_counter_fold xs (upsert (fun n => n + 1) 1 x init) a,
      alookup_upsert]
    have helim : ∀ o : Option Nat,
        (Option.elim o 1 fun n => n + 1) = o.getD 0 + 1 := by
      intro o; cases o <;> rfl
    by_cases hxa : x = a
    · subst hxa
      rw [if_pos rfl]
      have hocc : occ_count x (x :: xs) = 1 + occ_count x xs := by
        simp [occ_count]
      rw [if_pos (List.mem_cons_self x xs), helim, hocc]
      by_cases hmem : x ∈ xs
      · rw [if_pos hmem, Option.getD_some]
        congr 1
        omega
      · rw [if_neg hmem, occ_count_eq_zero hmem]
    · have hxa' : ¬x = a := hxa
      rw [if_neg hxa']
      have hocc : occ_count a (x :: xs) = occ_count a xs := by
        simp [occ_count, hxa']
      have hmm : (a ∈ x :: xs) ↔ a ∈ xs := by
        constructor
        · intro hh
          rcases List.mem_cons.mp hh with hh2 | hh2
          · exact absurd hh2.symm hxa
          · exact hh2
        · exact List.mem_cons_of_mem x
      rw [hocc]
      by_cases hmem : a ∈ xs
      · rw [if_pos hmem, if_pos (hmm.mpr hmem)]
      · rw [if_neg hmem, if_neg (fun hh => hmem (hmm.mp hh))]

theorem alookup_counter [DecidableEq α] (l : List α) (a : α) :
    alookup a (counter l) = if a ∈ l then some (occ_count a l) else none := by
  have h := alookup_counter_fold l [] a
  simpa [counter, alookup] using h

theorem counter_keys_eq [DecidableEq α] (l : List α) :
    (counter l).map Prod.fst = l.foldl add_key [] := by
  have h := keys_upsert_foldl (fun _ : α => fun n : Nat => n + 1)
    (fun _ => 1) (fun x => x) l []
  rw [List.map_id'] at h
  exact h

theorem counter_keys_nodup [DecidableEq α] (l : List α) :
    ((counter l).map Prod.fst).Nodup := by
  rw [counter_keys_eq]
  exact add_key_foldl_nodup l [] List.nodup_nil

theorem counter_nodup [DecidableEq α] (l : List α) : (counter l).Nodup :=
  (counter_keys_nodup l).of_map

theorem counter_mem [DecidableEq α] {l : List α} {a : α} {n : Nat} :
    (a, n) ∈ counter l ↔ a ∈ l ∧ n = occ_count a l := by
  rw [alookup_mem (counter_keys_nodup l), alookup_counter]
  by_cases h : a ∈ l
  · simp [h, eq_comm]
  · simp [h]

theorem counter_perm [DecidableEq α] {l l' : List α} (h : l ~ l') :
    counter l ~ counter l' := by
  apply (List.perm_ext_iff_of_nodup (counter_nodup l) (counter_nodup l')).mpr
  intro p
  obtain ⟨a, n⟩ := p
  rw [counter_mem, counter_mem, h.mem_iff, occ_count_perm h]

theorem counter_keys_sorted (l : List String)
    (hl : l.Pairwise (fun a b => a.data ≤ b.data)) :
    (counter l).Pairwise (fun a b => a.1.data < b.1.data) := by
  have h1 : ((counter l).map Prod.fst).Pairwise (fun a b => a.data < b.data) := by
    rw [counter_keys_eq]
    exact add_key_foldl_sorted_str l [] List.Pairwise.nil (by simp) hl
  exact (List.pairwise_map' Prod.fst).mp h1

/-! ### The penalty-score loop as two filters -/

theorem penalty_foldl (m : Match) (events : List Event) :
    ∀ (a b : List Event),
      events.foldl (penalty_step m) (a, b)
        = (a ++ events.filter (fun e =>
            decide ((e.period = 5 ∧ e.type_name = "Shot" ∧
              e.shot_outcome_name = "Goal") ∧
              e.team_name = m.home_team.name)),
           b ++ events.filter (fun e =>
            decide ((e.period = 5 ∧ e.type_name = "Shot" ∧
              e.shot_outcome_name = "Goal") ∧
              ¬e.team_name = m.home_team.name))) := by
  induction events with
  | nil => intro a b; simp
  | cons e es ih =>
    intro a b
    simp only [List.foldl_cons, penalty_step]
    by_cases hp : e.period = 5 ∧ e.type_name = "Shot" ∧ e.shot_outcome_name = "Goal"
    · rw [if_pos hp]
      by_cases ht : e.team_name = m.home_team.name
      · rw [if_pos ht]
        show (es.foldl (penalty_step m) (a ++ [e], b)) = _
        rw [ih]
        simp [List.filter_cons, hp, ht]
      · rw [if_neg ht]
        show (es.foldl (penalty_step m) (a, b ++ [e])) = _
        rw [ih]
        simp [List.filter_cons, hp, ht]
    · rw [if_neg hp]
      rw [ih]
      simp [List.filter_cons, hp]

theorem populate_penalty_scores_eq (m : Match) (events : List Event) :
    populate_penalty_scores m events
      = { m with
          home_penalty_score := (events.filter (fun e =>
            decide ((e.period = 5 ∧ e.type_name = "Shot" ∧
              e.shot_outcome_name = "Goal") ∧
              e.team_name = m.home_team.name))).length,
          away_penalty_score := (events.filter (fun e =>
            decide ((e.period = 5 ∧ e.type_name = "Shot" ∧
              e.shot_outcome_name = "Goal") ∧
              ¬e.team_name = m.home_team.name))).length } := by
  show (let pens := events.foldl (penalty_step m) ([], [])
    { m with home_penalty_score := pens.1.length,
             away_penalty_score := pens.2.length }) = _
  rw [penalty_foldl m events [] []]
  simp

/-! ### Claim theorems: winner, classification, penalty population -/

/-- Claim C1: `get_winning_team` returns the home team when the home
regulation score is higher and the away team when the away score is
higher; on level regulation scores it compares the penalty scores the
same way and returns the draw sentinel `none` when those are level too.
Regulation comparison takes precedence, and when the regulation scores
differ the winner does not depend on the event sequence the penalty
scores were populated from. -/
theorem claim_C1 : ∀ (m : Match),
    (m.home_score > m.away_score → get_winning_team m = some m.home_team) ∧
    (m.away_score > m.home_score → get_winning_team m = some m.away_team) ∧
    (m.home_score = m.away_score →
      (m.home_penalty_score > m.away_penalty_score →
        get_winning_team m = some m.home_team) ∧
      (m.away_penalty_score > m.home_penalty_score →
        get_winning_team m = some m.away_team) ∧
      (m.home_penalty_score = m.away_penalty_score →
        get_winning_team m = none)) ∧
    (∀ events events' : List Event, m.home_score ≠ m.away_score →
      get_winning_team (populate_penalty_scores m events)
        = get_winning_team (populate_penalty_scores m events')) := by
  intro m
  refine ⟨?_, ?_, ?_, ?_⟩
  · intro h
    simp only [get_winning_team]
    rw [if_pos h]
  · intro h
    simp only [get_winning_team]
    rw [if_neg (by omega), if_pos h]
  · intro hs
    refine ⟨?_, ?_, ?_⟩
    · intro h
      simp only [get_winning_team]
      rw [if_neg (by omega), if_neg (by omega), if_pos h]
    · intro h
      simp only [get_winning_team]
      rw [if_neg (by omega), if_neg (by omega), if_neg (by omega), if_pos h]
    · intro h
      simp only [get_winning_team]
      rw [if_neg (by omega), if_neg (by omega), if_neg (by omega),
        if_neg (by omega)]
  · intro ev1 ev2 hne
    by_cases h : m.home_score > m.away_score
    · have e1 : get_winning_team (populate_penalty_scores m ev1)
          = some m.home_team := by
        simp [get_winning_team, populate_penalty_scores, h]
      have e2 : get_winning_team (populate_penalty_scores m ev2)
          = some m.home_team := by
        simp [get_winning_team, populate_penalty_scores, h]
      rw [e1, e2]
    · have h2 : m.home_score < m.away_score := by omega
      have e1 : get_winning_team (populate_penalty_scores m ev1)
          = some m.away_team := by
        simp [get_winning_team, populate_penalty_scores, h, h2]
      have e2 : get_winning_team (populate_penalty_scores m ev2)
          = some m.away_team := by
        simp [get_winning_team, populate_penalty_scores, h, h2]
      rw [e1, e2]

/-- Witness for claim C1 at the concrete 3-1 match. -/
theorem claim_C1_witness :
    get_winning_team match_w = some match_w.home_team :=
  (claim_C1 match_w).1 (by decide)

/-- Claim C2: on a sequence whose maximum period is `p`, classification
returns `FULL_TIME` for `p ≤ 2`, `EXTRA_TIME` for `p` equal to 3 or 4,
and `PENALTY_SHOOTOUT` for `p ≥ 5`. -/
theorem claim_C2 : ∀ (events : List Event) (p : Nat),
    p ∈ events.map Event.period →
    (∀ q ∈ events.map Event.period, q ≤ p) →
    ((p ≤ 2 → get_result_type events = Except.ok ResultType.FULL_TIME) ∧
     ((p = 3 ∨ p = 4) →
        get_result_type events = Except.ok ResultType.EXTRA_TIME) ∧
     (5 ≤ p → get_result_type events = Except.ok ResultType.PENALTY_SHOOTOUT)) := by
  intro events p hmem hub
  have htp : terminal_period events = some p := by
    cases hevs : events.map Event.period with
    | nil => rw [hevs] at hmem; cases hmem
    | cons q qs =>
      rw [hevs] at hmem hub
      simp only [terminal_period, hevs]
      obtain ⟨h1, h2, h3⟩ := foldl_max_spec qs q
      have hle : qs.foldl max q ≤ p := by
        rcases h3 with h3 | h3
        · rw [h3]; exact hub q (List.mem_cons_self q qs)
        · exact hub _ (List.mem_cons_of_mem q h3)
      have hge : p ≤ qs.foldl max q := by
        rcases List.mem_cons.mp hmem with rfl | hm
        · exact h1
        · exact h2 p hm
      rw [Nat.le_antisymm hle hge]
  simp only [get_result_type, htp]
  refine ⟨?_, ?_, ?_⟩
  · intro h
    rw [if_pos h]
  · intro h
    rw [if_neg (by omega), if_pos (by omega)]
  · intro h
    rw [if_neg (by omega), if_neg (by omega)]

/-- Witness for claim C2 at a one-event period-5 sequence. -/
theorem claim_C2_witness :
    get_result_type [mk_event 5] = Except.ok ResultType.PENALTY_SHOOTOUT :=
  (claim_C2 [mk_event 5] 5 (by decide) (by decide)).2.2 (by decide)

/-- Claim C4: the resolved scoring-event list holds exactly the events of
period at most 4 that are shots with outcome "Goal"; in particular no
period-5 shootout conversion is ever in it. -/
theorem claim_C4 : ∀ (events : List Event) (e : Event),
    (e ∈ get_goal_events events ↔
      e ∈ events ∧ e.period ≤ 4 ∧ e.type_name = "Shot" ∧
        e.shot_outcome_name = "Goal") ∧
    (e.period = 5 → e ∉ get_goal_events events) := by
  intro events e
  have hmem : e ∈ get_goal_events events ↔
      e ∈ events ∧ e.period ≤ 4 ∧ e.type_name = "Shot" ∧
        e.shot_outcome_name = "Goal" := by
    unfold get_goal_events
    rw [List.mem_filter]
    simp
  refine ⟨hmem, ?_⟩
  intro h5 hin
  have := (hmem.mp hin).2.1
  omega

/-- Claim C7: the empty event sequence makes the classifier fail with
`EmptyEventSequence` and outcome resolution propagates that failure; a
non-empty sequence has a terminal period equal to the maximum period. -/
theorem claim_C7 :
    (terminal_period ([] : List Event) = none ∧
     get_result_type ([] : List Event) = Except.error Err.emptyEventSequence ∧
     ∀ (l0 l1 : Lineup) (m : Match),
       resolve_match l0 l1 m [] = Except.error Err.emptyEventSequence) ∧
    (∀ events : List Event, events ≠ [] →
      ∃ p, terminal_period events = some p ∧ p ∈ events.map Event.period ∧
        ∀ q ∈ events.map Event.period, q ≤ p) := by
  constructor
  · exact ⟨rfl, rfl, fun l0 l1 m => rfl⟩
  · intro events hne
    cases events with
    | nil => exact absurd rfl hne
    | cons e es =>
      obtain ⟨h1, h2, h3⟩ := foldl_max_spec (es.map Event.period) e.period
      refine ⟨(es.map Event.period).foldl max e.period, rfl, ?_, ?_⟩
      · simp only [List.map_cons, List.mem_cons]
        rcases h3 with h3 | h3
        · exact Or.inl h3
        · exact Or.inr h3
      · intro q hq
        simp only [List.map_cons, List.mem_cons] at hq
        rcases hq with rfl | hq'
        · exact h1
        · exact h2 q hq'

/-- Witness for claim C7 at a one-event sequence. -/
theorem claim_C7_witness :
    ∃ p, terminal_period [mk_event 2] = some p ∧
      p ∈ [mk_event 2].map Event.period ∧
      ∀ q ∈ [mk_event 2].map Event.period, q ≤ p :=
  claim_C7.2 [mk_event 2] (by decide)

/-- Claim C10: every period-5 scoring shot whose team name differs from
the home team name is credited to `away_penalty_score`, whether or not it
matches the away team name; only exact equality with the home team name
credits the home side.  The concrete conjuncts evaluate the counts on a
shot by a third team named like neither side. -/
theorem claim_C10 :
    (∀ (m : Match) (events : List Event),
      (populate_penalty_scores m events).home_penalty_score =
        (events.filter (fun e =>
          decide ((e.period = 5 ∧ e.type_name = "Shot" ∧
            e.shot_outcome_name = "Goal") ∧
            e.team_name = m.home_team.name))).length ∧
      (populate_penalty_scores m events).away_penalty_score =
        (events.filter (fun e =>
          decide ((e.period = 5 ∧ e.type_name = "Shot" ∧
            e.shot_outcome_name = "Goal") ∧
            ¬e.team_name = m.home_team.name))).length) ∧
    event_third_party.team_name ≠ match_level.home_team.name ∧
    event_third_party.team_name ≠ match_level.away_team.name ∧
    (populate_penalty_scores match_level [event_third_party]).away_penalty_score = 1 ∧
    (populate_penalty_scores match_level [event_third_party]).home_penalty_score = 0 := by
  refine ⟨?_, by decide, by decide, by decide, by decide⟩
  intro m events
  rw [populate_penalty_scores_eq]
  exact ⟨rfl, rfl⟩

/-- Claim C3: penalty-score population counts the period-5 scoring shots
of each side.  With distinct team names and every period-5 scoring shot
attributed to one of the two sides (the partition reading of the claim),
the two fields are the two partition sizes; with no period-5 event at all
both fields are written as zero. -/
theorem claim_C3 : ∀ (m : Match) (events : List Event),
    ((∀ e ∈ events, e.period ≠ 5) →
      (populate_penalty_scores m events).home_penalty_score = 0 ∧
      (populate_penalty_scores m events).away_penalty_score = 0) ∧
    (m.home_team.name ≠ m.away_team.name →
      (∀ e ∈ events,
        e.period = 5 ∧ e.type_name = "Shot" ∧ e.shot_outcome_name = "Goal" →
        e.team_name = m.home_team.name ∨ e.team_name = m.away_team.name) →
      ((populate_penalty_scores m events).home_penalty_score =
        (events.filter (fun e =>
          decide (e.period = 5 ∧ e.type_name = "Shot" ∧
            e.shot_outcome_name = "Goal" ∧
            e.team_name = m.home_team.name))).length ∧
       (populate_penalty_scores m events).away_penalty_score =
        (events.filter (fun e =>
          decide (e.period = 5 ∧ e.type_name = "Shot" ∧
            e.shot_outcome_name = "Goal" ∧
            e.team_name = m.away_team.name))).length)) := by
  intro m events
  rw [populate_penalty_scores_eq]
  dsimp only
  constructor
  · intro h5
    constructor
    · rw [List.length_eq_zero]
      apply List.filter_eq_nil_iff.mpr
      intro e he
      simp only [decide_eq_true_eq]
      rintro ⟨⟨h5e, -⟩, -⟩
      exact h5 e he h5e
    · rw [List.length_eq_zero]
      apply List.filter_eq_nil_iff.mpr
      intro e he
      simp only [decide_eq_true_eq]
      rintro ⟨⟨h5e, -⟩, -⟩
      exact h5 e he h5e
  · intro hne hpart
    constructor
    · congr 1
      apply List.filter_congr
      intro e he
      apply decide_eq_decide.mpr
      constructor
      · rintro ⟨⟨h1, h2, h3⟩, h4⟩
        exact ⟨h1, h2, h3, h4⟩
      · rintro ⟨h1, h2, h3, h4⟩
        exact ⟨⟨h1, h2, h3⟩, h4⟩
    · congr 1
      apply List.filter_congr
      intro e he
      apply decide_eq_decide.mpr
      constructor
      · rintro ⟨⟨h1, h2, h3⟩, h4⟩
        rcases hpart e he ⟨h1, h2, h3⟩ with hh | hh
        · exact absurd hh h4
        · exact ⟨h1, h2, h3, hh⟩
      · rintro ⟨h1, h2, h3, h4⟩
        refine ⟨⟨h1, h2, h3⟩, ?_⟩
        intro hhome
        exact hne (hhome.symm.trans h4)

/-- Witness for claim C3: a match with one period-5 scoring shot per side. -/
theorem claim_C3_witness :
    (populate_penalty_scores match_level []).home_penalty_score = 0 ∧
    (populate_penalty_scores match_level []).away_penalty_score = 0 :=
  (claim_C3 match_level []).1 (by decide)

/-- Any failure of one `populate_player_nicknames` iteration whose team
lookup succeeds is the missing-player failure. -/
theorem resolve_nickname_error (l0 l1 : Lineup) (e : Event)
    (hsome : (lineup_for l0 l1 e.team_name).isSome) :
    ∀ err, resolve_nickname l0 l1 e = Except.error err →
      err = Err.playerNotInLineup := by
  intro err h
  rw [Option.isSome_iff_exists] at hsome
  obtain ⟨lineup, hl⟩ := hsome
  simp only [resolve_nickname, hl] at h
  cases hf : lineup.filter (fun p => decide (p.player_id = e.player_id)) with
  | nil =>
    simp only [hf] at h
    injection h with h2
    exact h2.symm
  | cons p ps =>
    simp only [hf] at h
    exact Except.noConfusion h

/-- Claim C6: a scoring event whose player id is absent from the lineup
resolved for its team makes nickname resolution fail with
`PlayerNotInLineup` (provided every event's team has a lineup, so that no
earlier team-lookup failure preempts it); the whole traversal returns the
error rather than a success that skips the scorer. -/
theorem claim_C6 : ∀ (l0 l1 : Lineup) (events : List Event) (e : Event),
    e ∈ events →
    (∀ e1 ∈ events, (lineup_for l0 l1 e1.team_name).isSome) →
    (∀ lineup, lineup_for l0 l1 e.team_name = some lineup →
      ∀ q ∈ lineup, q.player_id ≠ e.player_id) →
    populate_player_nicknames l0 l1 events
      = Except.error Err.playerNotInLineup := by
  intro l0 l1 events
  induction events with
  | nil =>
    intro e he
    cases he
  | cons x xs ih =>
    intro e he hteam hmiss
    cases hr : resolve_nickname l0 l1 x with
    | error err =>
      have herr := resolve_nickname_error l0 l1 x
        (hteam x (List.mem_cons_self x xs)) err hr
      subst herr
      simp only [populate_player_nicknames, hr]
    | ok x' =>
      have hex : e ∈ xs := by
        rcases List.mem_cons.mp he with rfl | hmm2
        · exfalso
          obtain ⟨lineup, hl⟩ :=
            Option.isSome_iff_exists.mp (hteam e (List.mem_cons_self e xs))
          have hfil :
              lineup.filter (fun q => decide (q.player_id = e.player_id)) = [] := by
            apply List.filter_eq_nil_iff.mpr
            intro q hq
            simp only [decide_eq_true_eq]
            exact hmiss lineup hl q hq
          simp only [resolve_nickname, hl, hfil] at hr
          exact Except.noConfusion hr
        · exact hmm2
      have hrec := ih e hex
        (fun e1 he1 => hteam e1 (List.mem_cons_of_mem x he1)) hmiss
      simp only [populate_player_nicknames, hr, hrec]

/-- Witness for claim C6: player 7 scores but the home lineup only lists
player 8. -/
theorem claim_C6_witness :
    populate_player_nicknames lineup_h_other lineup_a_empty [event_goal]
      = Except.error Err.playerNotInLineup :=
  claim_C6 lineup_h_other lineup_a_empty [event_goal] event_goal
    (by decide) (by decide)
    (by
      intro lineup hl
      have hl' : some [(⟨8, none, "Q"⟩ : LineupEntry)] = some lineup := hl
      obtain rfl := Option.some.inj hl'
      decide)

/-- Claim C5 counterexample: a lineup nickname that is the empty string is
attached as-is, not replaced by the player's full name, so "absent covers
both a null and an empty nickname value" fails on the code. -/
theorem claim_C5_counterexample :
    populate_player_nicknames lineup_h_empty lineup_a_empty [event_goal]
      = Except.ok [{ event_goal with player_nickname := some "" }] ∧
    event_goal.player_name = "John Doe" ∧
    (some "" : Option String) ≠ some "John Doe" := by
  refine ⟨rfl, rfl, by decide⟩

/-- Claim C5 (amended): for a scoring event whose player id is found in
the lineup resolved for its team, resolution attaches the lineup nickname
whenever it is non-null — including when it is the empty string — and
falls back to the event player's full name only when the lineup nickname
is null. -/
theorem claim_C5_amended :
    ∀ (l0 l1 : Lineup) (e : Event) (lineup : List LineupEntry)
      (p : LineupEntry) (ps : List LineupEntry),
      lineup_for l0 l1 e.team_name = some lineup →
      lineup.filter (fun q => decide (q.player_id = e.player_id)) = p :: ps →
      ((∀ n, p.player_nickname = some n →
          resolve_nickname l0 l1 e
            = Except.ok { e with player_nickname := some n }) ∧
       (p.player_nickname = none →
          resolve_nickname l0 l1 e
            = Except.ok { e with player_nickname := some e.player_name })) := by
  intro l0 l1 e lineup p ps hl hf
  constructor
  · intro n hn
    simp only [resolve_nickname, hl, hf, hn]
  · intro hn
    simp only [resolve_nickname, hl, hf, hn]

/-- Witness for the amended claim C5 at the empty-string nickname lineup. -/
theorem claim_C5_amended_witness :
    resolve_nickname lineup_h_empty lineup_a_empty event_goal
      = Except.ok { event_goal with player_nickname := some "" } :=
  (claim_C5_amended lineup_h_empty lineup_a_empty event_goal
      lineup_h_empty.lineup
      { player_id := 7, player_nickname := some "", player_name := "John Doe" }
      [] (by decide) (by decide)).1 "" (by decide)

/-! ### Canonical form of the stable sorts -/

theorem str_le_trans : ∀ a b c : String,
    str_le a b = true → str_le b c = true → str_le a c = true := by
  intro a b c hab hbc
  simp only [str_le, decide_eq_true_eq] at hab hbc ⊢
  exact le_trans hab hbc

theorem str_le_total : ∀ a b : String, str_le a b = true ∨ str_le b a = true := by
  intro a b
  simp only [str_le, decide_eq_true_eq]
  exact le_total _ _

theorem str_le_antisymm : ∀ a b : String,
    str_le a b = true → str_le b a = true → a = b := by
  intro a b h h'
  simp only [str_le, decide_eq_true_eq] at h h'
  exact String.toList_inj.mp (le_antisymm h h')

theorem scorer_le_trans : ∀ a b c : String × Nat,
    scorer_le a b = true → scorer_le b c = true → scorer_le a c = true := by
  intro a b c hab hbc
  simp only [scorer_le, decide_eq_true_eq] at hab hbc ⊢
  rcases hab with h1 | ⟨h1, h1'⟩ <;> rcases hbc with h2 | ⟨h2, h2'⟩
  · exact Or.inl (lt_trans h2 h1)
  · exact Or.inl (h2 ▸ h1)
  · exact Or.inl (by omega)
  · exact Or.inr ⟨h1.trans h2, le_trans h1' h2'⟩

theorem scorer_le_total : ∀ a b : String × Nat,
    scorer_le a b = true ∨ scorer_le b a = true := by
  intro a b
  simp only [scorer_le, decide_eq_true_eq]
  rcases Nat.lt_trichotomy a.2 b.2 with h | h | h
  · exact Or.inr (Or.inl h)
  · rcases le_total a.1.data b.1.data with h' | h'
    · exact Or.inl (Or.inr ⟨h, h'⟩)
    · exact Or.inr (Or.inr ⟨h.symm, h'⟩)
  · exact Or.inl (Or.inl h)

theorem scorer_le_antisymm : ∀ a b : String × Nat,
    scorer_le a b = true → scorer_le b a = true → a = b := by
  intro a b hab hba
  simp only [scorer_le, decide_eq_true_eq] at hab hba
  have h2 : a.2 = b.2 := by
    rcases hab with h | ⟨h, -⟩ <;> rcases hba with h' | ⟨h', -⟩ <;> omega
  have hd : a.1.data ≤ b.1.data := by
    rcases hab with h | ⟨-, h⟩
    · exact absurd h (by omega)
    · exact h
  have hd' : b.1.data ≤ a.1.data := by
    rcases hba with h | ⟨-, h⟩
    · exact absurd h (by omega)
    · exact h
  exact Prod.ext (String.toList_inj.mp (le_antisymm hd hd')) h2

/-- A stable sort by a total, transitive, antisymmetric comparator is
canonical: permuted inputs sort to the same list. -/
theorem isort_canonical (le : α → α → Bool)
    (htrans : ∀ a b c, le a b = true → le b c = true → le a c = true)
    (htot : ∀ a b, le a b = true ∨ le b a = true)
    (hanti : ∀ a b, le a b = true → le b a = true → a = b)
    {l l' : List α} (h : l ~ l') : isort le l = isort le l' :=
  @List.eq_of_perm_of_sorted α (fun a b => le a b = true) ⟨hanti⟩ _ _
    ((isort_perm le l).trans (h.trans (isort_perm le l').symm))
    (isort_pairwise le htrans htot l)
    (isort_pairwise le htrans htot l')

/-- On counter items whose keys ascend strictly, the stable sort by bare
count agrees with the sort by (count descending, name ascending). -/
theorem most_common_eq_scorer_sort (items : List (String × Nat))
    (hkeys : items.Pairwise (fun a b => a.1.data < b.1.data)) :
    most_common items = isort scorer_le items := by
  unfold most_common
  apply isort_congr
  apply hkeys.imp
  intro a b hab
  show decide (b.2 ≤ a.2)
      = decide (b.2 < a.2 ∨ (a.2 = b.2 ∧ a.1.data ≤ b.1.data))
  apply decide_eq_decide.mpr
  constructor
  · intro h
    rcases Nat.lt_or_ge b.2 a.2 with h2 | h2
    · exact Or.inl h2
    · exact Or.inr ⟨Nat.le_antisymm h2 h, le_of_lt hab⟩
  · rintro (h | ⟨h1, h2⟩)
    · exact Nat.le_of_lt h
    · exact Nat.le_of_eq h1.symm

/-- Claim C8: the source's top-scorer pipeline — flatten the scorer
nicknames, `sorted`, `Counter`, `most_common()[:10]` — returns exactly
the top 10 (nickname, count) pairs by descending count with equal counts
in ascending nickname order, i.e. it coincides with the specification's
description `top_scorers_spec`; at the scorer multiset A:3, B:3, C:1 it
returns A before B before C. -/
theorem claim_C8 :
    (∀ ms : List Match, top_scorers ms = top_scorers_spec ms) ∧
    top_scorers [match_c8] = some [("A", 3), ("B", 3), ("C", 1)] := by
  constructor
  · intro ms
    unfold top_scorers top_scorers_spec
    cases hg : all_scorer_nicknames ms with
    | none => rfl
    | some gs =>
      have hsorted : (isort str_le gs).Pairwise
          (fun a b => a.data ≤ b.data) :=
        (isort_pairwise str_le str_le_trans str_le_total gs).imp
          (fun h => of_decide_eq_true h)
      have hkeys := counter_keys_sorted (isort str_le gs) hsorted
      have key : most_common (counter (isort str_le gs))
          = isort scorer_le (counter gs) := by
        rw [most_common_eq_scorer_sort (counter (isort str_le gs)) hkeys]
        exact isort_canonical scorer_le scorer_le_trans scorer_le_total
          scorer_le_antisymm (counter_perm (isort_perm str_le gs))
      show some ((most_common (counter (isort str_le gs))).take 10)
        = some ((isort scorer_le (counter gs)).take 10)
      rw [key]
  · decide

/-! ### Permutation behaviour of the three aggregate reports -/

theorem all_scorer_nicknames_perm {ms ms' : List Match} (h : ms ~ ms') :
    (all_scorer_nicknames ms = none ∧ all_scorer_nicknames ms' = none) ∨
    (∃ g g', all_scorer_nicknames ms = some g ∧
      all_scorer_nicknames ms' = some g' ∧ g ~ g') := by
  induction h with
  | nil => exact Or.inr ⟨[], [], rfl, rfl, List.Perm.nil⟩
  | cons x h ih =>
    cases hx : goals_nicknames x.goals with
    | none =>
      left
      constructor <;> simp [all_scorer_nicknames, hx]
    | some ns =>
      rcases ih with ⟨h1, h2⟩ | ⟨g, g', h1, h2, hgg⟩
      · left
        constructor <;> simp [all_scorer_nicknames, hx, h1, h2]
      · right
        exact ⟨ns ++ g, ns ++ g', by simp [all_scorer_nicknames, hx, h1],
          by simp [all_scorer_nicknames, hx, h2], hgg.append_left ns⟩
  | swap x y l =>
    cases hx : goals_nicknames x.goals with
    | none =>
      cases hy : goals_nicknames y.goals with
      | none =>
        left
        constructor <;> simp [all_scorer_nicknames, hx, hy]
      | some ns =>
        left
        constructor <;> simp [all_scorer_nicknames, hx, hy]
    | some ns =>
      cases hy : goals_nicknames y.goals with
      | none =>
        left
        constructor <;> simp [all_scorer_nicknames, hx, hy]
      | some ms2 =>
        cases hl : all_scorer_nicknames l with
        | none =>
          left
          constructor <;> simp [all_scorer_nicknames, hx, hy, hl]
        | some rest =>
          right
          refine ⟨ms2 ++ (ns ++ rest), ns ++ (ms2 ++ rest),
            by simp [all_scorer_nicknames, hx, hy, hl],
            by simp [all_scorer_nicknames, hx, hy, hl], ?_⟩
          rw [← List.append_assoc, ← List.append_assoc]
          exact List.perm_append_comm.append_right rest
  | trans h1 h2 ih1 ih2 =>
    rcases ih1 with ⟨a1, a2⟩ | ⟨g, g', b1, b2, hgg⟩
    · rcases ih2 with ⟨c1, c2⟩ | ⟨k, k', d1, d2, hkk⟩
      · exact Or.inl ⟨a1, c2⟩
      · rw [a2] at d1
        exact Option.noConfusion d1
    · rcases ih2 with ⟨c1, c2⟩ | ⟨k, k', d1, d2, hkk⟩
      · rw [b2] at c1
        exact Option.noConfusion c1
      · right
        rw [b2] at d1
        obtain rfl := Option.some.inj d1
        exact ⟨g, k', b1, d2, hgg.trans hkk⟩

theorem winners_perm {ms ms' : List Match} (h : ms ~ ms') :
    (winners ms = none ∧ winners ms' = none) ∨
    (∃ w w', winners ms = some w ∧ winners ms' = some w' ∧ w ~ w') := by
  induction h with
  | nil => exact Or.inr ⟨[], [], rfl, rfl, List.Perm.nil⟩
  | cons x h ih =>
    cases hx : get_winning_team x with
    | none =>
      left
      constructor <;> simp [winners, hx]
    | some t =>
      rcases ih with ⟨h1, h2⟩ | ⟨w, w', h1, h2, hww⟩
      · left
        constructor <;> simp [winners, hx, h1, h2]
      · right
        exact ⟨t :: w, t :: w', by simp [winners, hx, h1],
          by simp [winners, hx, h2], hww.cons t⟩
  | swap x y l =>
    cases hx : get_winning_team x with
    | none =>
      cases hy : get_winning_team y with
      | none =>
        left
        constructor <;> simp [winners, hx, hy]
      | some ty =>
        left
        constructor <;> simp [winners, hx, hy]
    | some tx =>
      cases hy : get_winning_team y with
      | none =>
        left
        constructor <;> simp [winners, hx, hy]
      | some ty =>
        cases hl : winners l with
        | none =>
          left
          constructor <;> simp [winners, hx, hy, hl]
        | some rest =>
          right
          exact ⟨ty :: tx :: rest, tx :: ty :: rest,
            by simp [winners, hx, hy, hl], by simp [winners, hx, hy, hl],
            List.Perm.swap tx ty rest⟩
  | trans h1 h2 ih1 ih2 =>
    rcases ih1 with ⟨a1, a2⟩ | ⟨w, w', b1, b2, hww⟩
    · rcases ih2 with ⟨c1, c2⟩ | ⟨k, k', d1, d2, hkk⟩
      · exact Or.inl ⟨a1, c2⟩
      · rw [a2] at d1
        exact Option.noConfusion d1
    · rcases ih2 with ⟨c1, c2⟩ | ⟨k, k', d1, d2, hkk⟩
      · rw [b2] at c1
        exact Option.noConfusion c1
      · right
        rw [b2] at d1
        obtain rfl := Option.some.inj d1
        exact ⟨w, k', b1, d2, hww.trans hkk⟩

theorem alookup_tbc_fold :
    ∀ (ws : List Team) (init : List (String × List String)) (c : String),
      alookup c (ws.foldl (fun acc t =>
          upsert (fun names => names ++ [get_team_name t]) [get_team_name t]
            t.country acc) init)
        = if c ∈ ws.map Team.country
          then some ((alookup c init).getD []
            ++ (ws.filter (fun t => decide (t.country = c))).map get_team_name)
          else alookup c init
  | [], init, c => by simp
  | t :: ws, init, c => by
    simp only [List.foldl_cons]
    rw [alookup_tbc_fold ws _ c, alookup_upsert]
    have helim : ∀ (o : Option (List String)),
        (Option.elim o [get_team_name t] fun names => names ++ [get_team_name t])
          = o.getD [] ++ [get_team_name t] := by
      intro o
      cases o <;> simp
    by_cases htc : t.country = c
    · rw [if_pos htc]
      have hmemc : c ∈ (t :: ws).map Team.country := by
        simp only [List.map_cons, List.mem_cons]
        exact Or.inl htc.symm
      rw [if_pos hmemc]
      have hfc : ((t :: ws).filter (fun t' => decide (t'.country = c))).map
            get_team_name
          = get_team_name t
            :: (ws.filter (fun t' => decide (t'.country = c))).map get_team_name := by
        simp [List.filter_cons, htc]
      rw [hfc, helim]
      by_cases hmem : c ∈ ws.map Team.country
      · rw [if_pos hmem, Option.getD_some]
        simp [List.append_assoc]
      · rw [if_neg hmem]
        have hnil : ws.filter (fun t' => decide (t'.country = c)) = [] := by
          apply List.filter_eq_nil_iff.mpr
          intro a ha
          simp only [decide_eq_true_eq]
          intro hac
          exact hmem (List.mem_map.mpr ⟨a, ha, hac⟩)
        rw [hnil]
        simp
    · rw [if_neg htc]
      have hmm : (c ∈ (t :: ws).map Team.country) ↔ c ∈ ws.map Team.country := by
        simp only [List.map_cons, List.mem_cons]
        constructor
        · rintro (hh | hh)
          · exact absurd hh.symm htc
          · exact hh
        · exact Or.inr
      have hfc : (t :: ws).filter (fun t' => decide (t'.country = c))
          = ws.filter (fun t' => decide (t'.country = c)) := by
        simp [List.filter_cons, htc]
      rw [hfc]
      by_cases hmem : c ∈ ws.map Team.country
      · rw [if_pos hmem, if_pos (hmm.mpr hmem)]
      · rw [if_neg hmem, if_neg (fun hh => hmem (hmm.mp hh))]

theorem tbc_keys_nodup (ws : List Team) :
    ((teams_by_country ws).map Prod.fst).Nodup := by
  unfold teams_by_country
  rw [keys_upsert_foldl (fun t names => names ++ [get_team_name t])
    (fun t => [get_team_name t]) Team.country ws []]
  exact add_key_foldl_nodup _ [] List.nodup_nil

theorem alookup_tbc (ws : List Team) (c : String) :
    alookup c (teams_by_country ws)
      = if c ∈ ws.map Team.country
        then some ((ws.filter (fun t => decide (t.country = c))).map get_team_name)
        else none := by
  have h := alookup_tbc_fold ws [] c
  unfold teams_by_country
  rw [h]
  by_cases hmem : c ∈ ws.map Team.country
  · rw [if_pos hmem, if_pos hmem]
    simp [alookup]
  · rw [if_neg hmem, if_neg hmem]
    rfl

theorem tbc_mem_iff (ws : List Team) (c : String) (vs : List String) :
    (c, vs) ∈ teams_by_country ws ↔
      c ∈ ws.map Team.country ∧
        vs = (ws.filter (fun t => decide (t.country = c))).map get_team_name := by
  rw [alookup_mem (tbc_keys_nodup ws), alookup_tbc]
  by_cases hmem : c ∈ ws.map Team.country
  · simp [hmem, eq_comm]
  · simp [hmem]

theorem wins_report_keys (w : List Team) (c : String) :
    c ∈ ((isort (fun a b => decide (b.2.length ≤ a.2.length))
        (teams_by_country w)).map
        (fun p => (p.1, most_common (counter p.2)))).map Prod.fst
      ↔ c ∈ w.map Team.country := by
  rw [List.map_map]
  constructor
  · intro hc
    rcases List.mem_map.mp hc with ⟨p, hp, hc2⟩
    have hp2 : p ∈ teams_by_country w := (mem_isort _).mp hp
    have h3 := (tbc_mem_iff w p.1 p.2).mp hp2
    have hc3 : p.1 = c := hc2
    exact hc3 ▸ h3.1
  · intro hc
    have hmem : (c, (w.filter (fun t => decide (t.country = c))).map get_team_name)
        ∈ teams_by_country w := (tbc_mem_iff w c _).mpr ⟨hc, rfl⟩
    exact List.mem_map.mpr ⟨_, (mem_isort _).mpr hmem, rfl⟩

theorem wins_report_entries {w : List Team} {c : String}
    {ts : List (String × Nat)}
    (h : (c, ts) ∈ (isort (fun a b => decide (b.2.length ≤ a.2.length))
        (teams_by_country w)).map
        (fun p => (p.1, most_common (counter p.2)))) :
    c ∈ w.map Team.country ∧
      ts = most_common (counter
        ((w.filter (fun t => decide (t.country = c))).map get_team_name)) := by
  rcases List.mem_map.mp h with ⟨p, hp, heq⟩
  have hp2 : p ∈ teams_by_country w := (mem_isort _).mp hp
  have h3 := (tbc_mem_iff w p.1 p.2).mp hp2
  have hc : p.1 = c := congrArg Prod.fst heq
  have hts : most_common (counter p.2) = ts := congrArg Prod.snd heq
  subst hc
  refine ⟨h3.1, ?_⟩
  rw [← hts, h3.2]

/-- Claim C9 counterexample: two matches whose team countries tie at two
appearances each; swapping the input order permutes the participation
report's rows, so the report is not independent of input order. -/
theorem claim_C9_counterexample :
    [match_p1, match_p2] ~ [match_p2, match_p1] ∧
    participation_report [match_p1, match_p2]
      ≠ participation_report [match_p2, match_p1] := by
  constructor
  · exact List.Perm.swap match_p2 match_p1 []
  · decide

/-- Claim C9 (amended): permuting the input match list preserves the
content of all three reports — the participation report up to row order,
the wins report up to country-row order and team-row order inside each
country, and the top-scorers report exactly (order included, because the
scorer list is lexicographically pre-sorted).  The order of tied rows in
the participation and wins reports follows first encounter and may change
with input order, as the counterexample shows. -/
theorem claim_C9_amended :
    ∀ (ms ms' : List Match), ms ~ ms' →
      (participation_report ms ~ participation_report ms') ∧
      (top_scorers ms = top_scorers ms') ∧
      ((wins_report ms = none ↔ wins_report ms' = none) ∧
       ∀ r r', wins_report ms = some r → wins_report ms' = some r' →
         ((∀ c, c ∈ r.map Prod.fst ↔ c ∈ r'.map Prod.fst) ∧
          (∀ c ts ts', (c, ts) ∈ r → (c, ts') ∈ r' → ts ~ ts'))) := by
  intro ms ms' h
  refine ⟨?_, ?_, ?_⟩
  · have hc := h.flatMap_right
      (fun m => [m.home_team.country, m.away_team.country])
    exact (isort_perm _ _).trans ((counter_perm hc).trans
      (isort_perm _ _).symm)
  · rcases all_scorer_nicknames_perm h with ⟨h1, h2⟩ | ⟨g, g', h1, h2, hgg⟩
    · simp [top_scorers, h1, h2]
    · have hs : isort str_le g = isort str_le g' :=
        isort_canonical str_le str_le_trans str_le_total str_le_antisymm hgg
      simp [top_scorers, h1, h2, hs]
  · rcases winners_perm h with ⟨h1, h2⟩ | ⟨w, w', h1, h2, hww⟩
    · constructor
      · simp [wins_report, h1, h2]
      · intro r r' hr hr'
        simp only [wins_report, h1] at hr
        exact Option.noConfusion hr
    · constructor
      · simp [wins_report, h1, h2]
      · intro r r' hr hr'
        simp only [wins_report, h1, h2] at hr hr'
        obtain rfl := Option.some.inj hr
        obtain rfl := Option.some.inj hr'
        constructor
        · intro c
          rw [wins_report_keys w c, wins_report_keys w' c]
          exact (hww.map Team.country).mem_iff
        · intro c ts ts' hts hts'
          obtain ⟨hc1, htseq⟩ := wins_report_entries hts
          obtain ⟨hc1', htseq'⟩ := wins_report_entries hts'
          subst htseq htseq'
          have hv : (w.filter (fun t => decide (t.country = c))).map get_team_name
              ~ (w'.filter (fun t => decide (t.country = c))).map get_team_name :=
            (hww.filter _).map _
          exact (isort_perm _ _).trans ((counter_perm hv).trans
            (isort_perm _ _).symm)

/-- Witness for the amended claim C9: the two-match tie scenario. -/
theorem claim_C9_amended_witness :
    participation_report [match_p1, match_p2]
      ~ participation_report [match_p2, match_p1] :=
  (claim_C9_amended [match_p1, match_p2] [match_p2, match_p1]
    (List.Perm.swap match_p2 match_p1 [])).1
